import Mathlib

/- Shallow embedding of bia-integrator-core (src/bia_integrator_core/models.py and
   src/bia_integrator_core/integrator.py).

   The integrator writes annotation key/value pairs directly into a Python object's
   attribute namespace via study.__dict__.update(...) and image.__dict__[key] = value,
   so the state of a study or image record is modelled as its __dict__: an
   insertion-ordered association list from attribute name to attribute value.
   The retrieval collaborators (study.get_study, annotation.get_study_annotations,
   annotation.get_image_annotations, representation.get_representations), the HTTP
   fetch (requests.get plus the status-200 assertion) and the OME-XML parse
   (ome_types.from_xml) are external to the core and are modelled as parameters
   returning Except values; a raised Python exception is an Except.error carrying
   the exception's rendering as a string. -/

instance {ε α : Type} [DecidableEq ε] [DecidableEq α] : DecidableEq (Except ε α) := fun a b =>
  match a, b with
  | Except.ok x, Except.ok y =>
      if h : x = y then isTrue (by rw [h]) else isFalse (fun hc => h (Except.ok.inj hc))
  | Except.error x, Except.error y =>
      if h : x = y then isTrue (by rw [h]) else isFalse (fun hc => h (Except.error.inj hc))
  | Except.ok _, Except.error _ => isFalse (fun hc => Except.noConfusion hc)
  | Except.error _, Except.ok _ => isFalse (fun hc => Except.noConfusion hc)

/-- Python dict as an insertion-ordered association list: setting an existing key
updates its value in place (keeping its position), a new key is appended at the
end. Models d[k] = v. -/
def dictSet {α : Type} : List (String × α) → String → α → List (String × α)
  | [], k, v => [(k, v)]
  | (a, b) :: rest, k, v =>
      if a = k then (a, v) :: rest else (a, b) :: dictSet rest k v

/-- Models d.get(k): the value stored for key k, if any. -/
def dictGet {α : Type} : List (String × α) → String → Option α
  | [], _ => Option.none
  | (a, b) :: rest, k => if a = k then some b else dictGet rest k

/-- The value of the last pair in the list carrying the given key, if any. -/
def lastVal {α : Type} : List (String × α) → String → Option α
  | [], _ => Option.none
  | p :: rest, k =>
    match lastVal rest k with
    | some v => some v
    | Option.none => if p.1 = k then some p.2 else Option.none

/-- Building a Python dict from a list of key/value pairs by repeated insertion,
as the integrator's loop `for a in study_annotations: annotations_dict[a.key] = a.value`
does: later pairs with a duplicate key overwrite earlier ones. -/
def buildDict {α : Type} (pairs : List (String × α)) : List (String × α) :=
  pairs.foldl (fun d p => dictSet d p.1 p.2) []

/-- Setting every entry of `entries`, in order, on the target dict `t`.
With `entries := buildDict pairs` this models `t.__dict__.update(annotations_dict)`;
with `entries := pairs` directly it models the per-annotation assignment loop
`t.__dict__[a.key] = a.value`. -/
def applyEntries {α : Type} (t : List (String × α)) (entries : List (String × α)) :
    List (String × α) :=
  entries.foldl (fun d p => dictSet d p.1 p.2) t

/-- Stand-in for Python float values appearing in rendering fields
(models.py ChannelRendering). No claim computes with these floats, so the
embedding carries their literal source text; floating-point arithmetic is
outside the embedding. -/
structure PyFloat where
  lit : String
deriving DecidableEq

/-- Free-form attribute mapping (Python `Dict`). The untyped values are carried
as strings; no claim inspects the contents of an attributes mapping. -/
abbrev AttrDict := List (String × String)

structure ChannelRendering where
  colormap_start : List PyFloat
  colormap_end : List PyFloat
  scale_factor : PyFloat := ⟨"1.0"⟩
deriving DecidableEq

structure RenderingInfo where
  channel_renders : List ChannelRendering
  default_z : Option Int
  default_t : Option Int
deriving DecidableEq

/-- models.py BIAImageRepresentation. `uri` is `Union[str, List[str]]`. -/
structure BIAImageRepresentation where
  accession_id : String
  image_id : String
  uri : String ⊕ List String
  size : Int
  type : Option String
  dimensions : Option String
  attributes : Option AttrDict
  rendering : Option RenderingInfo
deriving DecidableEq

structure BIAFileRepresentation where
  accession_id : String
  file_id : String
  uri : String ⊕ List String
  size : Int
deriving DecidableEq

/-- models.py BIAFile; `original_relpath` is a pathlib.Path, carried as its text. -/
structure BIAFile where
  id : String
  original_relpath : String
  original_size : Int
  attributes : AttrDict := []
  representations : List BIAFileRepresentation := []
deriving DecidableEq

structure FileReference where
  id : String
  name : String
  uri : String
  size_in_bytes : Option Int
  attributes : AttrDict := []
deriving DecidableEq

structure Author where
  name : String
deriving DecidableEq

structure BIAImageAlias where
  name : String
  accession_id : String
  image_id : String
deriving DecidableEq

/-- The parsed OME document produced by the external ome_types.from_xml; opaque
to the core, carried as the raw document text. -/
structure OME where
  doc : String
deriving DecidableEq

/-- models.py BIAImage declared fields (the pydantic model). -/
structure BIAImage where
  id : String
  accession_id : Option String := Option.none
  name : Option String
  original_relpath : String
  dimensions : Option String
  representations : List BIAImageRepresentation := []
  attributes : AttrDict := []
deriving DecidableEq

/-- A value stored in a BIAImage object's __dict__: either one of the declared
fields' values, a Python None, an annotation string written by the integrator,
or a cached OME document stored by the ome_metadata property. -/
inductive ImgVal where
  | pyNone
  | str (s : String)
  | path (p : String)
  | reps (l : List BIAImageRepresentation)
  | attrs (d : AttrDict)
  | ome (o : OME)
deriving DecidableEq

/-- The __dict__ of a BIAImage object. -/
abbrev ImageDict := List (String × ImgVal)

def optStrVal : Option String → ImgVal
  | some s => ImgVal.str s
  | Option.none => ImgVal.pyNone

/-- The __dict__ of a freshly constructed (pydantic-validated) BIAImage, holding
exactly the declared fields in declaration order. -/
def BIAImage.toDict (im : BIAImage) : ImageDict :=
  [("id", ImgVal.str im.id),
   ("accession_id", optStrVal im.accession_id),
   ("name", optStrVal im.name),
   ("original_relpath", ImgVal.path im.original_relpath),
   ("dimensions", optStrVal im.dimensions),
   ("representations", ImgVal.reps im.representations),
   ("attributes", ImgVal.attrs im.attributes)]

/-- models.py BIAStudy declared fields. `tags` is a Python set of strings,
carried as a list; no claim depends on set semantics. -/
structure BIAStudy where
  accession_id : String
  title : String
  description : String
  authors : Option (List Author) := some []
  organism : String
  release_date : String
  imaging_type : Option String
  attributes : AttrDict := []
  example_image_uri : String := ""
  file_references : List (String × FileReference) := []
  images : List (String × BIAImage) := []
  archive_files : List (String × BIAFile) := []
  other_files : List (String × BIAFile) := []
  image_aliases : List (String × BIAImageAlias) := []
  tags : List String := []
deriving DecidableEq

/-- A value stored in a BIAStudy object's __dict__. -/
inductive StudyVal where
  | pyNone
  | str (s : String)
  | authors (l : List Author)
  | attrs (d : AttrDict)
  | fileRefs (d : List (String × FileReference))
  | images (d : List (String × ImageDict))
  | files (d : List (String × BIAFile))
  | aliases (d : List (String × BIAImageAlias))
  | tags (l : List String)
deriving DecidableEq

/-- The __dict__ of a BIAStudy object. -/
abbrev StudyDict := List (String × StudyVal)

/-- The __dict__ of a freshly constructed (pydantic-validated) BIAStudy, holding
exactly the declared fields in declaration order; the images mapping holds the
images' own __dict__ states. -/
def BIAStudy.toDict (s : BIAStudy) : StudyDict :=
  [("accession_id", StudyVal.str s.accession_id),
   ("title", StudyVal.str s.title),
   ("description", StudyVal.str s.description),
   ("authors",
     match s.authors with
     | some l => StudyVal.authors l
     | Option.none => StudyVal.pyNone),
   ("organism", StudyVal.str s.organism),
   ("release_date", StudyVal.str s.release_date),
   ("imaging_type",
     match s.imaging_type with
     | some t => StudyVal.str t
     | Option.none => StudyVal.pyNone),
   ("attributes", StudyVal.attrs s.attributes),
   ("example_image_uri", StudyVal.str s.example_image_uri),
   ("file_references", StudyVal.fileRefs s.file_references),
   ("images", StudyVal.images (s.images.map (fun p => (p.1, p.2.toDict)))),
   ("archive_files", StudyVal.files s.archive_files),
   ("other_files", StudyVal.files s.other_files),
   ("image_aliases", StudyVal.aliases s.image_aliases),
   ("tags", StudyVal.tags s.tags)]

/-- models.py StudyAnnotation. -/
structure StudyAnnotation where
  accession_id : String
  key : String
  value : String
deriving DecidableEq

/-- models.py ImageAnnotation. -/
structure ImageAnnotation where
  accession_id : String
  image_id : String
  key : String
  value : String
deriving DecidableEq

/-- The retrieval collaborators consumed by integrator.py, external to the core.
An Except.error models a raised Python exception, carried opaquely. -/
structure Collaborators where
  get_study : String → Except String BIAStudy
  get_study_annotations : String → Except String (List StudyAnnotation)
  get_image_annotations : String → String → Except String (List ImageAnnotation)
  get_representations : String → String → Except String (List BIAImageRepresentation)

/-- The (key, value) pairs of a study-level annotation list, with the string
values entering the attribute namespace as StudyVal.str. -/
def sAnnPairs (anns : List StudyAnnotation) : List (String × StudyVal) :=
  anns.map (fun a => (a.key, StudyVal.str a.value))

/-- The (key, value) pairs of an image-level annotation list, with the string
values entering the attribute namespace as ImgVal.str. -/
def iAnnPairs (anns : List ImageAnnotation) : List (String × ImgVal) :=
  anns.map (fun a => (a.key, ImgVal.str a.value))

/-- The body of the per-image loop in integrator.load_and_annotate_study:
fetch image annotations and set each key/value on the image's __dict__ in list
order, then fetch additional representations and evaluate
image.representations += additional_image_reps, which reads the current value
of the representations attribute (a TypeError is raised if it no longer holds a
list of representations) and writes back the concatenation. -/
def processOneImage (C : Collaborators) (accession_id image_id : String)
    (img : ImageDict) : Except String ImageDict :=
  match C.get_image_annotations accession_id image_id with
  | Except.error e => Except.error e
  | Except.ok ianns =>
    match C.get_representations accession_id image_id with
    | Except.error e => Except.error e
    | Except.ok additional =>
      match dictGet (applyEntries img (iAnnPairs ianns)) "representations" with
      | some (ImgVal.reps cur) =>
          Except.ok (dictSet (applyEntries img (iAnnPairs ianns)) "representations"
            (ImgVal.reps (cur ++ additional)))
      | _ => Except.error "TypeError: representations does not support list concatenation"

/-- The per-image loop of integrator.load_and_annotate_study, processing the
images mapping's entries in insertion order; the first raised error aborts the
loop and later images' collaborators are never invoked. -/
def processImages (C : Collaborators) (accession_id : String) :
    List (String × ImageDict) → Except String (List (String × ImageDict))
  | [] => Except.ok []
  | (image_id, img) :: rest =>
    match processOneImage C accession_id image_id img with
    | Except.error e => Except.error e
    | Except.ok img' =>
      match processImages C accession_id rest with
      | Except.error e => Except.error e
      | Except.ok rest' => Except.ok ((image_id, img') :: rest')

/-- integrator.load_and_annotate_study: fetch the study, build annotations_dict
from the study annotations (later duplicate keys overwriting earlier ones) and
update the study's __dict__ with it, then process every image, and return the
merged study's state. Reading study.images raises (AttributeError) if a study
annotation replaced the images mapping with a string. -/
def load_and_annotate_study (C : Collaborators) (accession_id : String) :
    Except String StudyDict :=
  match C.get_study accession_id with
  | Except.error e => Except.error e
  | Except.ok study =>
    match C.get_study_annotations accession_id with
    | Except.error e => Except.error e
    | Except.ok study_anns =>
      match dictGet (applyEntries study.toDict (buildDict (sAnnPairs study_anns))) "images" with
      | some (StudyVal.images imgs) =>
        match processImages C accession_id imgs with
        | Except.error e => Except.error e
        | Except.ok imgs' =>
            Except.ok (dictSet (applyEntries study.toDict (buildDict (sAnnPairs study_anns)))
              "images" (StudyVal.images imgs'))
      | _ => Except.error "AttributeError: images"

/-- The images mapping of a merged study's state. -/
def imagesOf (d : StudyDict) : List (String × ImageDict) :=
  match dictGet d "images" with
  | some (StudyVal.images l) => l
  | _ => []

/-- Splits a character list at the first occurrence of the pattern, returning
the parts before and after it, or none when the pattern does not occur. -/
def breakOnSub (pat : List Char) : List Char → Option (List Char × List Char)
  | [] => if pat.isEmpty then some ([], []) else Option.none
  | c :: rest =>
    if pat.isPrefixOf (c :: rest) then some ([], (c :: rest).drop pat.length)
    else
      match breakOnSub pat rest with
      | some pq => some (c :: pq.1, pq.2)
      | Option.none => Option.none

/-- Splits a character list on every occurrence of a separator character
(the semantics of str.split with a one-character separator). -/
def splitOnChar (sep : Char) : List Char → List (List Char)
  | [] => [[]]
  | c :: rest =>
    match splitOnChar sep rest with
    | h :: t => if c = sep then [] :: h :: t else (c :: h) :: t
    | [] => [[c]]

/-- str(Path(p).parent) for an absolute POSIX path p, as a character list
(pathlib normalises away empty and "." components). -/
def pathParent (p : List Char) : List Char :=
  let comps := (splitOnChar '/' p).filter (fun c => c ≠ [] ∧ c ≠ ['.'])
  match comps with
  | [] => ['/']
  | _ => '/' :: List.intercalate ['/'] comps.dropLast

/-- str(Path(p) / c) for an absolute POSIX path p, as character lists. -/
def pathJoin (p c : List Char) : List Char :=
  if p = ['/'] then p ++ c else p ++ '/' :: c

/-- The metadata URI constructed by BIAImage.ome_metadata from a representation
URI: urlparse the URI, replace its path with the sibling path
OME/METADATA.ome.xml of the path's parent, and urlunparse with scheme and
netloc kept and params, query and fragment dropped. urlparse is modelled for
absolute hierarchical URIs (a single scheme://netloc/path without params,
query or fragment); other inputs are outside the modelled domain and yield
none. -/
def deriveOmeUri (uri : String) : Option String :=
  let l := uri.data
  if l.any (fun c => c = '?' ∨ c = '#' ∨ c = ';') then Option.none
  else
    match breakOnSub [':', '/', '/'] l with
    | Option.none => Option.none
    | some pq =>
      if (breakOnSub [':', '/', '/'] pq.2).isSome then Option.none
      else
        let netloc := pq.2.takeWhile (fun c => c ≠ '/')
        let path := pq.2.drop netloc.length
        match path with
        | '/' :: _ =>
          some (String.mk (pq.1 ++ [':', '/', '/'] ++ netloc ++
            pathJoin (pathParent path) ("OME/METADATA.ome.xml".data)))
        | _ => Option.none

/-- models.py BIAImage.ome_metadata property, as a state-passing function. The
fetch parameter models requests.get together with the status-200 assertion and
ome_types.from_xml(..., validate=False): it returns the parsed OME document or
an error for the raised AssertionError. The result is the returned value (the
cached or computed metadata, ImgVal.pyNone modelling a returned Python None),
the image state after the call, and the number of fetch invocations the call
performed. -/
def ome_metadata (fetch : String → Except String OME) (img : ImageDict) :
    Except String (ImgVal × ImageDict × Nat) :=
  match (dictGet img "ome_metadata").getD ImgVal.pyNone with
  | ImgVal.pyNone =>
    match dictGet img "representations" with
    | some (ImgVal.reps l) =>
      match (l.filter (fun r => r.type = some "ome_ngff")).getLast? with
      | Option.none => Except.ok (ImgVal.pyNone, img, 0)
      | some r =>
        match r.uri with
        | Sum.inl s =>
          match deriveOmeUri s with
          | some u =>
            match fetch u with
            | Except.ok o =>
                Except.ok (ImgVal.ome o, dictSet img "ome_metadata" (ImgVal.ome o), 1)
            | Except.error e => Except.error e
          | Option.none => Except.error "urlparse: URI outside the modelled domain"
        | Sum.inr _ => Except.error "TypeError: urlparse expects a string"
    | _ => Except.error "TypeError: representations is not iterable as representations"
  | v => Except.ok (v, img, 0)

/- ------------------------------------------------------------------ -/
/- Lemmas about the dict model.                                       -/
/- ------------------------------------------------------------------ -/

def optOr {α : Type} (a b : Option α) : Option α :=
  match a with
  | some v => some v
  | Option.none => b

theorem optOr_none {α : Type} (a : Option α) : optOr a Option.none = a := by
  cases a <;> rfl

/-- The keys of a dict, in order. -/
def keys {α : Type} (d : List (String × α)) : List String :=
  d.map Prod.fst

theorem dictGet_dictSet {α : Type} (d : List (String × α)) (k k' : String) (v : α) :
    dictGet (dictSet d k v) k' = if k' = k then some v else dictGet d k' := by
  induction d with
  | nil =>
    by_cases h : k' = k
    · subst h; simp [dictSet, dictGet]
    · simp only [dictSet, dictGet, if_neg h, if_neg (fun hh : k = k' => h hh.symm)]
  | cons p rest ih =>
    obtain ⟨a, b⟩ := p
    by_cases hak : a = k
    · subst hak
      by_cases h : k' = a
      · subst h; simp [dictSet, dictGet]
      · simp only [dictSet, dictGet, if_pos rfl, if_neg h,
          if_neg (fun hh : a = k' => h hh.symm)]
    · by_cases h : k' = a
      · subst h
        simp [dictSet, dictGet, if_neg hak]
      · simp only [dictSet, dictGet, if_neg hak, if_neg h,
          if_neg (fun hh : a = k' => h hh.symm), ih]

theorem applyEntries_nil {α : Type} (t : List (String × α)) : applyEntries t [] = t := rfl

theorem applyEntries_cons {α : Type} (t : List (String × α)) (p : String × α)
    (l : List (String × α)) : applyEntries t (p :: l) = applyEntries (dictSet t p.1 p.2) l := rfl

theorem lastVal_cons {α : Type} (p : String × α) (l : List (String × α)) (k : String) :
    lastVal (p :: l) k = optOr (lastVal l k) (if p.1 = k then some p.2 else Option.none) := by
  cases h : lastVal l k <;> simp [lastVal, h, optOr]

theorem dictGet_applyEntries {α : Type} (t l : List (String × α)) (k : String) :
    dictGet (applyEntries t l) k = optOr (lastVal l k) (dictGet t k) := by
  induction l generalizing t with
  | nil => simp [applyEntries, lastVal, optOr]
  | cons p rest ih =>
    rw [applyEntries_cons, ih, lastVal_cons, dictGet_dictSet]
    cases h : lastVal rest k with
    | some v => simp [optOr]
    | none =>
      by_cases hk : p.1 = k
      · subst hk; simp [optOr]
      · simp only [optOr, if_neg hk, if_neg (fun hh : k = p.1 => hk hh.symm)]

theorem keys_dictSet {α : Type} (d : List (String × α)) (k : String) (v : α) :
    keys (dictSet d k v) = if k ∈ keys d then keys d else keys d ++ [k] := by
  induction d with
  | nil => simp [dictSet, keys]
  | cons p rest ih =>
    obtain ⟨a, b⟩ := p
    by_cases hak : a = k
    · subst hak; simp [dictSet, keys]
    · have hka : ¬k = a := fun hh => hak hh.symm
      simp only [keys, List.map_cons] at ih ⊢
      simp only [dictSet, if_neg hak, List.map_cons]
      rw [ih]
      by_cases hm : k ∈ List.map Prod.fst rest
      · rw [if_pos hm, if_pos (List.mem_cons.mpr (Or.inr hm))]
      · rw [if_neg hm, if_neg (fun hh => (List.mem_cons.mp hh).elim hka hm)]
        simp

theorem nodup_keys_dictSet {α : Type} (d : List (String × α)) (k : String) (v : α)
    (h : (keys d).Nodup) : (keys (dictSet d k v)).Nodup := by
  rw [keys_dictSet]
  by_cases hm : k ∈ keys d
  · simpa [hm] using h
  · simp only [hm, if_false]
    simpa [List.nodup_append] using ⟨h, hm⟩

theorem nodup_keys_applyEntries {α : Type} (t l : List (String × α))
    (h : (keys t).Nodup) : (keys (applyEntries t l)).Nodup := by
  induction l generalizing t with
  | nil => simpa [applyEntries] using h
  | cons p rest ih =>
    rw [applyEntries_cons]
    exact ih _ (nodup_keys_dictSet _ _ _ h)

theorem buildDict_eq_applyEntries {α : Type} (l : List (String × α)) :
    buildDict l = applyEntries [] l := rfl

theorem nodup_keys_buildDict {α : Type} (l : List (String × α)) :
    (keys (buildDict l)).Nodup := by
  rw [buildDict_eq_applyEntries]
  exact nodup_keys_applyEntries [] l (by simp [keys])

theorem dictGet_eq_none_of_not_mem_keys {α : Type} (d : List (String × α)) (k : String)
    (h : k ∉ keys d) : dictGet d k = Option.none := by
  induction d with
  | nil => rfl
  | cons p rest ih =>
    obtain ⟨a, b⟩ := p
    simp only [keys, List.map_cons, List.mem_cons] at h
    push_neg at h
    simp only [dictGet, if_neg (fun hh : a = k => h.1 hh.symm)]
    exact ih (by simpa [keys] using h.2)

theorem lastVal_eq_dictGet_of_nodup {α : Type} (d : List (String × α)) (k : String)
    (h : (keys d).Nodup) : lastVal d k = dictGet d k := by
  induction d with
  | nil => rfl
  | cons p rest ih =>
    obtain ⟨a, b⟩ := p
    simp only [keys, List.map_cons, List.nodup_cons] at h
    rw [lastVal_cons, ih (by simpa [keys] using h.2)]
    by_cases hak : a = k
    · subst hak
      rw [dictGet_eq_none_of_not_mem_keys rest a (by simpa [keys] using h.1)]
      simp [dictGet, optOr]
    · simp only [dictGet, if_neg hak]
      exact optOr_none _

/-- The key fact behind the equivalence of the two merge strategies: setting the
entries of the pre-aggregated dict built from a pair list has the same effect on
any target dict as setting the pairs one by one, key by key. -/
theorem dictGet_applyEntries_buildDict {α : Type} (t l : List (String × α)) (k : String) :
    dictGet (applyEntries t (buildDict l)) k = dictGet (applyEntries t l) k := by
  rw [dictGet_applyEntries, dictGet_applyEntries,
    lastVal_eq_dictGet_of_nodup _ _ (nodup_keys_buildDict l),
    buildDict_eq_applyEntries, dictGet_applyEntries]
  cases lastVal l k <;> simp [optOr, dictGet]

/-- In a dict with no duplicate keys an association is determined by its key. -/
theorem assoc_unique_of_nodup {α : Type} (d : List (String × α)) (k : String) (a b : α)
    (h : (keys d).Nodup) (ha : (k, a) ∈ d) (hb : (k, b) ∈ d) : a = b := by
  induction d with
  | nil => cases ha
  | cons p rest ih =>
    obtain ⟨x, y⟩ := p
    simp only [keys, List.map_cons, List.nodup_cons] at h
    rcases List.mem_cons.mp ha with ha1 | ha2 <;> rcases List.mem_cons.mp hb with hb1 | hb2
    · obtain ⟨hk1, hv1⟩ := Prod.mk.inj ha1
      obtain ⟨hk2, hv2⟩ := Prod.mk.inj hb1
      exact hv1.trans hv2.symm
    · obtain ⟨hk1, hv1⟩ := Prod.mk.inj ha1
      exact absurd (hk1 ▸ List.mem_map.mpr ⟨(k, b), hb2, rfl⟩) h.1
    · obtain ⟨hk2, hv2⟩ := Prod.mk.inj hb1
      exact absurd (hk2 ▸ List.mem_map.mpr ⟨(k, a), ha2, rfl⟩) h.1
    · exact ih (by simpa [keys] using h.2) ha2 hb2

/- ------------------------------------------------------------------ -/
/- Lemmas about constructed records and the integrator pipeline.      -/
/- ------------------------------------------------------------------ -/

theorem image_toDict_reps (im : BIAImage) :
    dictGet im.toDict "representations" = some (ImgVal.reps im.representations) := rfl

theorem image_toDict_no_cache (im : BIAImage) :
    dictGet im.toDict "ome_metadata" = Option.none := rfl

theorem study_toDict_images (s : BIAStudy) :
    dictGet s.toDict "images" =
      some (StudyVal.images (s.images.map (fun p => (p.1, p.2.toDict)))) := rfl

/-- The raw (key, value) string pairs of a study-level annotation list, in order. -/
def annPairs (anns : List StudyAnnotation) : List (String × String) :=
  anns.map (fun a => (a.key, a.value))

/-- The raw (key, value) string pairs of an image-level annotation list, in order. -/
def imgAnnPairs (anns : List ImageAnnotation) : List (String × String) :=
  anns.map (fun a => (a.key, a.value))

theorem lastVal_map {α β : Type} (f : α → β) (l : List (String × α)) (k : String) :
    lastVal (l.map (fun p => (p.1, f p.2))) k = Option.map f (lastVal l k) := by
  induction l with
  | nil => rfl
  | cons p rest ih =>
    simp only [List.map_cons, lastVal_cons, ih]
    cases lastVal rest k with
    | some v => simp [optOr]
    | none =>
      by_cases hk : p.1 = k
      · simp [optOr, hk]
      · simp [optOr, hk]

theorem sAnnPairs_eq (anns : List StudyAnnotation) :
    sAnnPairs anns = (annPairs anns).map (fun p => (p.1, StudyVal.str p.2)) := by
  simp [sAnnPairs, annPairs, List.map_map, Function.comp]

theorem iAnnPairs_eq (anns : List ImageAnnotation) :
    iAnnPairs anns = (imgAnnPairs anns).map (fun p => (p.1, ImgVal.str p.2)) := by
  simp [iAnnPairs, imgAnnPairs, List.map_map, Function.comp]

theorem lastVal_sAnnPairs (anns : List StudyAnnotation) (k : String) :
    lastVal (sAnnPairs anns) k = Option.map StudyVal.str (lastVal (annPairs anns) k) := by
  rw [sAnnPairs_eq, lastVal_map]

theorem lastVal_iAnnPairs (anns : List ImageAnnotation) (k : String) :
    lastVal (iAnnPairs anns) k = Option.map ImgVal.str (lastVal (imgAnnPairs anns) k) := by
  rw [iAnnPairs_eq, lastVal_map]

theorem processImages_nil (C : Collaborators) (aid : String) :
    processImages C aid [] = Except.ok [] := rfl

theorem processImages_cons (C : Collaborators) (aid iid : String) (img : ImageDict)
    (rest : List (String × ImageDict)) :
    processImages C aid ((iid, img) :: rest) =
      match processOneImage C aid iid img with
      | Except.error e => Except.error e
      | Except.ok img' =>
        match processImages C aid rest with
        | Except.error e => Except.error e
        | Except.ok rest' => Except.ok ((iid, img') :: rest') := rfl

theorem processImages_mem_forward (C : Collaborators) (aid : String)
    (l l' : List (String × ImageDict)) (h : processImages C aid l = Except.ok l')
    (iid : String) (img : ImageDict) (hm : (iid, img) ∈ l) :
    ∃ imgd, processOneImage C aid iid img = Except.ok imgd ∧ (iid, imgd) ∈ l' := by
  induction l generalizing l' with
  | nil => cases hm
  | cons p rest ih =>
    obtain ⟨pid, pimg⟩ := p
    rw [processImages_cons] at h
    cases h1 : processOneImage C aid pid pimg with
    | error e => rw [h1] at h; cases h
    | ok pimg' =>
      rw [h1] at h
      cases h2 : processImages C aid rest with
      | error e => rw [h2] at h; cases h
      | ok rest' =>
        rw [h2] at h
        have hl' : (pid, pimg') :: rest' = l' := Except.ok.inj h
        rcases List.mem_cons.mp hm with h3 | h3
        · obtain ⟨hk, hv⟩ := Prod.mk.inj h3
          subst hk
          subst hv
          exact ⟨pimg', h1, hl' ▸ List.mem_cons_self _ _⟩
        · obtain ⟨imgd, hA, hB⟩ := ih rest' h2 h3
          exact ⟨imgd, hA, hl' ▸ List.mem_cons.mpr (Or.inr hB)⟩

theorem processImages_mem_backward (C : Collaborators) (aid : String)
    (l l' : List (String × ImageDict)) (h : processImages C aid l = Except.ok l')
    (iid : String) (imgd : ImageDict) (hm : (iid, imgd) ∈ l') :
    ∃ img, (iid, img) ∈ l ∧ processOneImage C aid iid img = Except.ok imgd := by
  induction l generalizing l' with
  | nil =>
    rw [processImages_nil] at h
    rw [← Except.ok.inj h] at hm
    cases hm
  | cons p rest ih =>
    obtain ⟨pid, pimg⟩ := p
    rw [processImages_cons] at h
    cases h1 : processOneImage C aid pid pimg with
    | error e => rw [h1] at h; cases h
    | ok pimg' =>
      rw [h1] at h
      cases h2 : processImages C aid rest with
      | error e => rw [h2] at h; cases h
      | ok rest' =>
        rw [h2] at h
        rw [← Except.ok.inj h] at hm
        rcases List.mem_cons.mp hm with h3 | h3
        · obtain ⟨hk, hv⟩ := Prod.mk.inj h3
          subst hk
          subst hv
          exact ⟨pimg, List.mem_cons_self _ _, h1⟩
        · obtain ⟨img, hA, hB⟩ := ih rest' h2 h3
          exact ⟨img, List.mem_cons.mpr (Or.inr hA), hB⟩

theorem processImages_append (C : Collaborators) (aid : String)
    (pre rest : List (String × ImageDict)) (lp : List (String × ImageDict))
    (h : processImages C aid pre = Except.ok lp) :
    processImages C aid (pre ++ rest) =
      match processImages C aid rest with
      | Except.error e => Except.error e
      | Except.ok lr => Except.ok (lp ++ lr) := by
  induction pre generalizing lp with
  | nil =>
    rw [processImages_nil] at h
    rw [← Except.ok.inj h]
    simp only [List.nil_append]
    cases processImages C aid rest <;> rfl
  | cons p pre' ih =>
    obtain ⟨pid, pimg⟩ := p
    rw [processImages_cons] at h
    cases h1 : processOneImage C aid pid pimg with
    | error e => rw [h1] at h; cases h
    | ok pimg' =>
      rw [h1] at h
      cases h2 : processImages C aid pre' with
      | error e => rw [h2] at h; cases h
      | ok lp' =>
        rw [h2] at h
        rw [← Except.ok.inj h]
        rw [List.cons_append, processImages_cons, h1, ih lp' h2]
        cases processImages C aid rest <;> rfl

theorem load_ok_elim (C : Collaborators) (aid : String) (d : StudyDict)
    (h : load_and_annotate_study C aid = Except.ok d) :
    ∃ s anns imgs imgs',
      C.get_study aid = Except.ok s ∧
      C.get_study_annotations aid = Except.ok anns ∧
      dictGet (applyEntries s.toDict (buildDict (sAnnPairs anns))) "images" =
        some (StudyVal.images imgs) ∧
      processImages C aid imgs = Except.ok imgs' ∧
      d = dictSet (applyEntries s.toDict (buildDict (sAnnPairs anns))) "images"
            (StudyVal.images imgs') := by
  cases h1 : C.get_study aid with
  | error e =>
    simp only [load_and_annotate_study, h1] at h
    exact Except.noConfusion h
  | ok s =>
    cases h2 : C.get_study_annotations aid with
    | error e =>
      simp only [load_and_annotate_study, h1, h2] at h
      exact Except.noConfusion h
    | ok anns =>
      cases h3 : dictGet (applyEntries s.toDict (buildDict (sAnnPairs anns))) "images" with
      | none =>
        simp only [load_and_annotate_study, h1, h2, h3] at h
        exact Except.noConfusion h
      | some v =>
        cases v with
        | images imgs =>
          cases h4 : processImages C aid imgs with
          | error e =>
            simp only [load_and_annotate_study, h1, h2, h3, h4] at h
            exact Except.noConfusion h
          | ok imgs' =>
            simp only [load_and_annotate_study, h1, h2, h3, h4, Except.ok.injEq] at h
            exact ⟨s, anns, imgs, imgs', rfl, rfl, h3, h4, h.symm⟩
        | pyNone =>
          simp only [load_and_annotate_study, h1, h2, h3] at h
          exact Except.noConfusion h
        | str a =>
          simp only [load_and_annotate_study, h1, h2, h3] at h
          exact Except.noConfusion h
        | authors a =>
          simp only [load_and_annotate_study, h1, h2, h3] at h
          exact Except.noConfusion h
        | attrs a =>
          simp only [load_and_annotate_study, h1, h2, h3] at h
          exact Except.noConfusion h
        | fileRefs a =>
          simp only [load_and_annotate_study, h1, h2, h3] at h
          exact Except.noConfusion h
        | files a =>
          simp only [load_and_annotate_study, h1, h2, h3] at h
          exact Except.noConfusion h
        | aliases a =>
          simp only [load_and_annotate_study, h1, h2, h3] at h
          exact Except.noConfusion h
        | tags a =>
          simp only [load_and_annotate_study, h1, h2, h3] at h
          exact Except.noConfusion h

theorem processOneImage_ok_elim (C : Collaborators) (aid iid : String) (img imgd : ImageDict)
    (h : processOneImage C aid iid img = Except.ok imgd) :
    ∃ ianns additional cur,
      C.get_image_annotations aid iid = Except.ok ianns ∧
      C.get_representations aid iid = Except.ok additional ∧
      dictGet (applyEntries img (iAnnPairs ianns)) "representations" =
        some (ImgVal.reps cur) ∧
      imgd = dictSet (applyEntries img (iAnnPairs ianns)) "representations"
        (ImgVal.reps (cur ++ additional)) := by
  cases h1 : C.get_image_annotations aid iid with
  | error e =>
    simp only [processOneImage, h1] at h
    exact Except.noConfusion h
  | ok ianns =>
    cases h2 : C.get_representations aid iid with
    | error e =>
      simp only [processOneImage, h1, h2] at h
      exact Except.noConfusion h
    | ok additional =>
      cases h3 : dictGet (applyEntries img (iAnnPairs ianns)) "representations" with
      | none =>
        simp only [processOneImage, h1, h2, h3] at h
        exact Except.noConfusion h
      | some v =>
        cases v with
        | reps cur =>
          simp only [processOneImage, h1, h2, h3, Except.ok.injEq] at h
          exact ⟨ianns, additional, cur, rfl, rfl, h3, h.symm⟩
        | pyNone =>
          simp only [processOneImage, h1, h2, h3] at h
          exact Except.noConfusion h
        | str a =>
          simp only [processOneImage, h1, h2, h3] at h
          exact Except.noConfusion h
        | path a =>
          simp only [processOneImage, h1, h2, h3] at h
          exact Except.noConfusion h
        | attrs a =>
          simp only [processOneImage, h1, h2, h3] at h
          exact Except.noConfusion h
        | ome a =>
          simp only [processOneImage, h1, h2, h3] at h
          exact Except.noConfusion h

theorem lastVal_sAnnPairs_cases (anns : List StudyAnnotation) (k : String) :
    lastVal (sAnnPairs anns) k = Option.none ∨
      ∃ u, lastVal (sAnnPairs anns) k = some (StudyVal.str u) := by
  rw [lastVal_sAnnPairs]
  cases lastVal (annPairs anns) k with
  | none => exact Or.inl rfl
  | some u => exact Or.inr ⟨u, rfl⟩

theorem lastVal_iAnnPairs_cases (anns : List ImageAnnotation) (k : String) :
    lastVal (iAnnPairs anns) k = Option.none ∨
      ∃ u, lastVal (iAnnPairs anns) k = some (ImgVal.str u) := by
  rw [lastVal_iAnnPairs]
  cases lastVal (imgAnnPairs anns) k with
  | none => exact Or.inl rfl
  | some u => exact Or.inr ⟨u, rfl⟩

theorem imagesOf_dictSet (D : StudyDict) (l : List (String × ImageDict)) :
    imagesOf (dictSet D "images" (StudyVal.images l)) = l := by
  simp [imagesOf, dictGet_dictSet]

theorem keys_map_snd {α β : Type} (f : α → β) (l : List (String × α)) :
    keys (l.map (fun p => (p.1, f p.2))) = keys l := by
  simp [keys, List.map_map, Function.comp]

/-- After a successful per-image processing step, a key written by the image
annotations holds the value of the last annotation with that key. -/
theorem processed_image_annotated_value (C : Collaborators) (aid iid : String)
    (img imgd : ImageDict) (h : processOneImage C aid iid img = Except.ok imgd)
    (ianns : List ImageAnnotation) (h1 : C.get_image_annotations aid iid = Except.ok ianns)
    (k v : String) (hv : lastVal (imgAnnPairs ianns) k = some v) :
    dictGet imgd k = some (ImgVal.str v) := by
  obtain ⟨iannsE, additional, cur, h1', h2', h3', h4'⟩ :=
    processOneImage_ok_elim C aid iid img imgd h
  rw [h1] at h1'
  have hEq : iannsE = ianns := (Except.ok.inj h1').symm
  rw [hEq] at h3' h4'
  have hlast : lastVal (iAnnPairs ianns) k = some (ImgVal.str v) := by
    rw [lastVal_iAnnPairs, hv]
    rfl
  have hkrep : ¬k = "representations" := by
    intro hk
    subst hk
    rw [dictGet_applyEntries, hlast] at h3'
    simp [optOr] at h3'
  rw [h4', dictGet_dictSet, if_neg hkrep, dictGet_applyEntries, hlast]
  rfl

/- ------------------------------------------------------------------ -/
/- Claim theorems.                                                    -/
/- ------------------------------------------------------------------ -/

/-- C1: for every study and every annotation sequence (study-level or
image-level), after load_and_annotate_study returns, the final value of the
dynamic attribute for a key equals the value of the last annotation in the
input list with that key (last-write-wins); this covers in particular
sequences containing duplicate keys. -/
theorem C1_last_write_wins (C : Collaborators) (accession_id : String) (d : StudyDict)
    (h : load_and_annotate_study C accession_id = Except.ok d) :
    (∀ anns k v, C.get_study_annotations accession_id = Except.ok anns →
      lastVal (annPairs anns) k = some v →
      dictGet d k = some (StudyVal.str v)) ∧
    (∀ image_id ianns k v imgd,
      C.get_image_annotations accession_id image_id = Except.ok ianns →
      lastVal (imgAnnPairs ianns) k = some v →
      (image_id, imgd) ∈ imagesOf d →
      dictGet imgd k = some (ImgVal.str v)) := by
  obtain ⟨s, anns0, imgs, imgs', hs, hsa, h3, h4, hd⟩ := load_ok_elim C accession_id d h
  constructor
  · intro anns k v hga hvv
    rw [hsa] at hga
    have hEq : anns0 = anns := Except.ok.inj hga
    rw [hEq] at h3 hd
    have hlast : lastVal (sAnnPairs anns) k = some (StudyVal.str v) := by
      rw [lastVal_sAnnPairs, hvv]
      rfl
    have hki : ¬k = "images" := by
      intro hk
      subst hk
      rw [dictGet_applyEntries_buildDict, dictGet_applyEntries, hlast] at h3
      simp [optOr] at h3
    rw [hd, dictGet_dictSet, if_neg hki, dictGet_applyEntries_buildDict,
      dictGet_applyEntries, hlast]
    rfl
  · intro image_id ianns k v imgd hga hvv hmem
    rw [hd, imagesOf_dictSet] at hmem
    obtain ⟨img, hmem0, hpo⟩ :=
      processImages_mem_backward C accession_id imgs imgs' h4 image_id imgd hmem
    exact processed_image_annotated_value C accession_id image_id img imgd hpo ianns hga k v hvv

/-- C7: applying an empty annotation list (the collaborator returned no
annotations) to a study or image record, with the same application functions
the integrator uses, leaves the record's __dict__ — and hence every declared
field — unchanged. -/
theorem C7_empty_annotations_frame (s : BIAStudy) (im : BIAImage) :
    applyEntries s.toDict (buildDict (sAnnPairs [])) = s.toDict ∧
    applyEntries im.toDict (iAnnPairs []) = im.toDict :=
  ⟨rfl, rfl⟩

/-- C9: the two annotation-application strategies used by
load_and_annotate_study — pre-aggregating a key-to-value dict with buildDict
and applying it in one bulk update (study-level), versus applying each
annotation pair individually in list order (image-level) — produce the same
final dynamic-attribute state on any target record, for every annotation
list. -/
theorem C9_bulk_and_sequential_equivalent :
    (∀ (t : StudyDict) (anns : List StudyAnnotation) (k : String),
      dictGet (applyEntries t (buildDict (sAnnPairs anns))) k =
        dictGet (applyEntries t (sAnnPairs anns)) k) ∧
    (∀ (t : ImageDict) (anns : List ImageAnnotation) (k : String),
      dictGet (applyEntries t (buildDict (iAnnPairs anns))) k =
        dictGet (applyEntries t (iAnnPairs anns)) k) :=
  ⟨fun t anns k => dictGet_applyEntries_buildDict t (sAnnPairs anns) k,
   fun t anns k => dictGet_applyEntries_buildDict t (iAnnPairs anns) k⟩

/-- C2: for every image in the study, appending the fetched additional
representations is strictly additive and order-preserving: the resulting
representations list has length len(before) + len(fetched), its first
len(before) elements equal the prior list, and the suffix equals the fetched
list exactly (so exact duplicates are kept, since list append never
deduplicates). -/
theorem C2_append_representations (C : Collaborators) (accession_id : String)
    (d : StudyDict) (s : BIAStudy)
    (h : load_and_annotate_study C accession_id = Except.ok d)
    (hs : C.get_study accession_id = Except.ok s)
    (hnd : (s.images.map Prod.fst).Nodup)
    (image_id : String) (im : BIAImage) (him : (image_id, im) ∈ s.images)
    (additional : List BIAImageRepresentation)
    (hadd : C.get_representations accession_id image_id = Except.ok additional)
    (imgd : ImageDict) (hmem : (image_id, imgd) ∈ imagesOf d) :
    ∃ after, dictGet imgd "representations" = some (ImgVal.reps after) ∧
      after.length = im.representations.length + additional.length ∧
      after.take im.representations.length = im.representations ∧
      after.drop im.representations.length = additional := by
  obtain ⟨s0, anns0, imgs, imgs', hs0, hsa, h3, h4, hd⟩ := load_ok_elim C accession_id d h
  rw [hs] at hs0
  have hsEq : s0 = s := (Except.ok.inj hs0).symm
  rw [hsEq] at h3 hd
  have himgs : imgs = s.images.map (fun p => (p.1, p.2.toDict)) := by
    rcases lastVal_sAnnPairs_cases anns0 "images" with hc | ⟨u, hc⟩
    · rw [dictGet_applyEntries_buildDict, dictGet_applyEntries, hc,
        study_toDict_images] at h3
      simp only [optOr, Option.some.injEq, StudyVal.images.injEq] at h3
      exact h3.symm
    · rw [dictGet_applyEntries_buildDict, dictGet_applyEntries, hc] at h3
      simp [optOr] at h3
  rw [hd, imagesOf_dictSet] at hmem
  obtain ⟨img, hmem0, hpo⟩ :=
    processImages_mem_backward C accession_id imgs imgs' h4 image_id imgd hmem
  rw [himgs] at hmem0
  obtain ⟨q, hq, hqe⟩ := List.mem_map.mp hmem0
  obtain ⟨q1, q2⟩ := q
  obtain ⟨hq1, hq2⟩ := Prod.mk.inj hqe
  subst hq1
  have hq2im : q2 = im := assoc_unique_of_nodup s.images q1 q2 im hnd hq him
  subst hq2im
  obtain ⟨ianns, additional0, cur, hI1, hI2, hI3, hI4⟩ :=
    processOneImage_ok_elim C accession_id q1 img imgd hpo
  rw [hadd] at hI2
  have haEq : additional0 = additional := (Except.ok.inj hI2).symm
  rw [haEq] at hI4
  have hcur : cur = q2.representations := by
    rcases lastVal_iAnnPairs_cases ianns "representations" with hc | ⟨u, hc⟩
    · rw [dictGet_applyEntries, hc, ← hq2, image_toDict_reps] at hI3
      simp only [optOr, Option.some.injEq, ImgVal.reps.injEq] at hI3
      exact hI3.symm
    · rw [dictGet_applyEntries, hc] at hI3
      simp [optOr] at hI3
  refine ⟨q2.representations ++ additional, ?_, ?_, ?_, ?_⟩
  · rw [hI4, hcur, dictGet_dictSet, if_pos rfl]
  · simp
  · simp
  · simp

/-- C3: load_and_annotate_study performs no local error handling: a failure
raised by any retrieval collaborator (get_study, get_study_annotations,
get_image_annotations at the first failing image, get_representations at the
first failing image) propagates unchanged to the caller; since the result type
carries either a study state or the error alone, a caller never observes a
partially merged study on failure. -/
theorem C3_error_propagation (C : Collaborators) (accession_id : String) :
    (∀ e, C.get_study accession_id = Except.error e →
      load_and_annotate_study C accession_id = Except.error e) ∧
    (∀ s e, C.get_study accession_id = Except.ok s →
      C.get_study_annotations accession_id = Except.error e →
      load_and_annotate_study C accession_id = Except.error e) ∧
    (∀ s anns imgs pre image_id img post lp e,
      C.get_study accession_id = Except.ok s →
      C.get_study_annotations accession_id = Except.ok anns →
      dictGet (applyEntries s.toDict (buildDict (sAnnPairs anns))) "images" =
        some (StudyVal.images imgs) →
      imgs = pre ++ (image_id, img) :: post →
      processImages C accession_id pre = Except.ok lp →
      C.get_image_annotations accession_id image_id = Except.error e →
      load_and_annotate_study C accession_id = Except.error e) ∧
    (∀ s anns imgs pre image_id img post lp ianns e,
      C.get_study accession_id = Except.ok s →
      C.get_study_annotations accession_id = Except.ok anns →
      dictGet (applyEntries s.toDict (buildDict (sAnnPairs anns))) "images" =
        some (StudyVal.images imgs) →
      imgs = pre ++ (image_id, img) :: post →
      processImages C accession_id pre = Except.ok lp →
      C.get_image_annotations accession_id image_id = Except.ok ianns →
      C.get_representations accession_id image_id = Except.error e →
      load_and_annotate_study C accession_id = Except.error e) := by
  refine ⟨?_, ?_, ?_, ?_⟩
  · intro e h1
    simp only [load_and_annotate_study, h1]
  · intro s e h1 h2
    simp only [load_and_annotate_study, h1, h2]
  · intro s anns imgs pre image_id img post lp e h1 h2 h3 him hpre herr
    have hbody : processOneImage C accession_id image_id img = Except.error e := by
      simp only [processOneImage, herr]
    have hrest : processImages C accession_id ((image_id, img) :: post) = Except.error e := by
      rw [processImages_cons, hbody]
    have hall : processImages C accession_id imgs = Except.error e := by
      rw [him, processImages_append C accession_id pre _ lp hpre, hrest]
    simp only [load_and_annotate_study, h1, h2, h3, hall]
  · intro s anns imgs pre image_id img post lp ianns e h1 h2 h3 him hpre hian herr
    have hbody : processOneImage C accession_id image_id img = Except.error e := by
      simp only [processOneImage, hian, herr]
    have hrest : processImages C accession_id ((image_id, img) :: post) = Except.error e := by
      rw [processImages_cons, hbody]
    have hall : processImages C accession_id imgs = Except.error e := by
      rw [him, processImages_append C accession_id pre _ lp hpre, hrest]
    simp only [load_and_annotate_study, h1, h2, h3, hall]

/-- C4 (amended): for every image whose representations list contains at least
one representation of type "ome_ngff", the first access of the ome_metadata
accessor constructs the metadata URI from the URI of the LAST
"ome_ngff"-typed representation in the list (the source filters and then
calls list.pop(), which removes and returns the last element), replacing its
path with the sibling path OME/METADATA.ome.xml, then fetches and parses that
document through the external fetch-and-parse collaborator (which performs no
schema validation); on success the parsed document is cached in the object's
attribute namespace and one fetch is performed, and a fetch failure
propagates. -/
theorem C4_uses_last_ngff_uri (im : BIAImage) (fetch : String → Except String OME)
    (r : BIAImageRepresentation)
    (hlast : (im.representations.filter (fun rp => rp.type = some "ome_ngff")).getLast? =
      some r)
    (s u : String) (hu : r.uri = Sum.inl s) (hd : deriveOmeUri s = some u) :
    ome_metadata fetch im.toDict =
      Except.map
        (fun o => (ImgVal.ome o, dictSet im.toDict "ome_metadata" (ImgVal.ome o), 1))
        (fetch u) := by
  simp only [ome_metadata, image_toDict_no_cache, image_toDict_reps, Option.getD,
    hlast, hu, hd]
  cases fetch u <;> rfl

/-- C5: for every image with no representation of type "ome_ngff", the
ome_metadata accessor returns absent (Python None), leaves the image state
unchanged and performs no fetch-collaborator invocation (no network access). -/
theorem C5_no_ngff_no_fetch (im : BIAImage) (fetch : String → Except String OME)
    (hno : im.representations.filter (fun rp => rp.type = some "ome_ngff") = []) :
    ome_metadata fetch im.toDict = Except.ok (ImgVal.pyNone, im.toDict, 0) := by
  simp only [ome_metadata, image_toDict_no_cache, image_toDict_reps, Option.getD, hno]
  rfl

/-- C6: once an access of ome_metadata has returned a present (non-None) value
and the resulting object state, every further access on that state returns the
same value with zero fetch-collaborator invocations and leaves the state
unchanged — so for an image with an ome_ngff representation the metadata is
computed at most once per object instance regardless of access count. -/
theorem C6_cached_after_first_access (img img' : ImageDict) (v : ImgVal) (n : Nat)
    (fetch : String → Except String OME)
    (h : ome_metadata fetch img = Except.ok (v, img', n)) (hv : v ≠ ImgVal.pyNone) :
    ome_metadata fetch img' = Except.ok (v, img', 0) := by
  cases hc : (dictGet img "ome_metadata").getD ImgVal.pyNone with
  | pyNone =>
    cases hr : dictGet img "representations" with
    | none =>
      simp only [ome_metadata, hc, hr] at h
      exact Except.noConfusion h
    | some w =>
      cases w with
      | reps l =>
        cases hL : (l.filter (fun rp => rp.type = some "ome_ngff")).getLast? with
        | none =>
          simp only [ome_metadata, hc, hr, hL, Except.ok.injEq, Prod.mk.injEq] at h
          exact absurd h.1 (fun hh => hv hh.symm)
        | some r =>
          cases hu : r.uri with
          | inl sU =>
            cases hdu : deriveOmeUri sU with
            | none =>
              simp only [ome_metadata, hc, hr, hL, hu, hdu] at h
              exact Except.noConfusion h
            | some u =>
              cases hf : fetch u with
              | error e =>
                simp only [ome_metadata, hc, hr, hL, hu, hdu, hf] at h
                exact Except.noConfusion h
              | ok o =>
                simp only [ome_metadata, hc, hr, hL, hu, hdu, hf, Except.ok.injEq,
                  Prod.mk.injEq] at h
                obtain ⟨hv1, hv2, hv3⟩ := h
                rw [← hv1, ← hv2]
                have hget : dictGet (dictSet img "ome_metadata" (ImgVal.ome o))
                    "ome_metadata" = some (ImgVal.ome o) := by
                  rw [dictGet_dictSet, if_pos rfl]
                simp only [ome_metadata, hget, Option.getD]
          | inr lU =>
            simp only [ome_metadata, hc, hr, hL, hu] at h
            exact Except.noConfusion h
      | pyNone =>
        simp only [ome_metadata, hc, hr] at h
        exact Except.noConfusion h
      | str a =>
        simp only [ome_metadata, hc, hr] at h
        exact Except.noConfusion h
      | path a =>
        simp only [ome_metadata, hc, hr] at h
        exact Except.noConfusion h
      | attrs a =>
        simp only [ome_metadata, hc, hr] at h
        exact Except.noConfusion h
      | ome a =>
        simp only [ome_metadata, hc, hr] at h
        exact Except.noConfusion h
  | str a =>
    simp only [ome_metadata, hc, Except.ok.injEq, Prod.mk.injEq] at h
    obtain ⟨hv1, hv2, hv3⟩ := h
    rw [← hv1, ← hv2]
    simp only [ome_metadata, hc]
  | path a =>
    simp only [ome_metadata, hc, Except.ok.injEq, Prod.mk.injEq] at h
    obtain ⟨hv1, hv2, hv3⟩ := h
    rw [← hv1, ← hv2]
    simp only [ome_metadata, hc]
  | reps a =>
    simp only [ome_metadata, hc, Except.ok.injEq, Prod.mk.injEq] at h
    obtain ⟨hv1, hv2, hv3⟩ := h
    rw [← hv1, ← hv2]
    simp only [ome_metadata, hc]
  | attrs a =>
    simp only [ome_metadata, hc, Except.ok.injEq, Prod.mk.injEq] at h
    obtain ⟨hv1, hv2, hv3⟩ := h
    rw [← hv1, ← hv2]
    simp only [ome_metadata, hc]
  | ome a =>
    simp only [ome_metadata, hc, Except.ok.injEq, Prod.mk.injEq] at h
    obtain ⟨hv1, hv2, hv3⟩ := h
    rw [← hv1, ← hv2]
    simp only [ome_metadata, hc]

/-- C10: image annotations are written into the same attribute namespace the
ome_metadata cache uses, so when load_and_annotate_study applies an image
annotation whose key is "ome_metadata" (its value a string, hence non-None),
every subsequent access of that image's ome_metadata accessor returns the
annotation's value directly, with no fetch-collaborator invocation and no
dependence on the representations list. -/
theorem C10_annotation_shadows_cache (C : Collaborators) (accession_id : String)
    (d : StudyDict) (h : load_and_annotate_study C accession_id = Except.ok d)
    (image_id : String) (ianns : List ImageAnnotation)
    (hia : C.get_image_annotations accession_id image_id = Except.ok ianns)
    (v : String) (hv : lastVal (imgAnnPairs ianns) "ome_metadata" = some v)
    (imgd : ImageDict) (hmem : (image_id, imgd) ∈ imagesOf d)
    (fetch : String → Except String OME) :
    ome_metadata fetch imgd = Except.ok (ImgVal.str v, imgd, 0) := by
  obtain ⟨s, anns0, imgs, imgs', hs, hsa, h3, h4, hd⟩ := load_ok_elim C accession_id d h
  rw [hd, imagesOf_dictSet] at hmem
  obtain ⟨img, hmem0, hpo⟩ :=
    processImages_mem_backward C accession_id imgs imgs' h4 image_id imgd hmem
  have hg : dictGet imgd "ome_metadata" = some (ImgVal.str v) :=
    processed_image_annotated_value C accession_id image_id img imgd hpo ianns hia
      "ome_metadata" v hv
  simp only [ome_metadata, hg, Option.getD]

/- ------------------------------------------------------------------ -/
/- Concrete fixtures used by the witnesses.                           -/
/- ------------------------------------------------------------------ -/

def wRawRep : BIAImageRepresentation :=
  { accession_id := "S-BIAD1", image_id := "IM1", uri := Sum.inl "http://x/a", size := 1,
    type := some "raw", dimensions := Option.none, attributes := Option.none,
    rendering := Option.none }

def wThumbRep : BIAImageRepresentation :=
  { accession_id := "S-BIAD1", image_id := "IM1", uri := Sum.inl "http://x/thumb",
    size := 2, type := some "thumbnail", dimensions := Option.none,
    attributes := Option.none, rendering := Option.none }

def wImage : BIAImage :=
  { id := "IM1", accession_id := some "S-BIAD1", name := some "im",
    original_relpath := "rel/im1", dimensions := Option.none,
    representations := [wRawRep], attributes := [] }

def wStudy : BIAStudy :=
  { accession_id := "S-BIAD1", title := "t", description := "d", authors := some [],
    organism := "mouse", release_date := "2021-01-01", imaging_type := Option.none,
    images := [("IM1", wImage)] }

def wC : Collaborators :=
  { get_study := fun _ => Except.ok wStudy,
    get_study_annotations := fun _ => Except.ok
      [⟨"S-BIAD1", "organism", "mouse2"⟩, ⟨"S-BIAD1", "organism", "human"⟩],
    get_image_annotations := fun _ _ => Except.ok
      [⟨"S-BIAD1", "IM1", "dimensions", "4D"⟩, ⟨"S-BIAD1", "IM1", "dimensions", "5D"⟩],
    get_representations := fun _ _ => Except.ok [wThumbRep] }

def wD : StudyDict :=
  match load_and_annotate_study wC "S-BIAD1" with
  | Except.ok d => d
  | Except.error _ => []

def wImgd : ImageDict :=
  match imagesOf wD with
  | p :: _ => p.2
  | [] => []

def wCFail1 : Collaborators :=
  { get_study := fun _ => Except.error "boom1",
    get_study_annotations := fun _ => Except.ok [],
    get_image_annotations := fun _ _ => Except.ok [],
    get_representations := fun _ _ => Except.ok [] }

def wCFail2 : Collaborators :=
  { get_study := fun _ => Except.ok wStudy,
    get_study_annotations := fun _ => Except.error "boom2",
    get_image_annotations := fun _ _ => Except.ok [],
    get_representations := fun _ _ => Except.ok [] }

def wCFail3 : Collaborators :=
  { get_study := fun _ => Except.ok wStudy,
    get_study_annotations := fun _ => Except.ok [],
    get_image_annotations := fun _ _ => Except.error "boom3",
    get_representations := fun _ _ => Except.ok [] }

def wCFail4 : Collaborators :=
  { get_study := fun _ => Except.ok wStudy,
    get_study_annotations := fun _ => Except.ok [],
    get_image_annotations := fun _ _ => Except.ok [],
    get_representations := fun _ _ => Except.error "boom4" }

def wNgff1 : BIAImageRepresentation :=
  { accession_id := "S-BIAD1", image_id := "IM2", uri := Sum.inl "http://h/a/im1.zarr",
    size := 1, type := some "ome_ngff", dimensions := Option.none,
    attributes := Option.none, rendering := Option.none }

def wNgff2 : BIAImageRepresentation :=
  { accession_id := "S-BIAD1", image_id := "IM2", uri := Sum.inl "http://h/b/im2.zarr",
    size := 1, type := some "ome_ngff", dimensions := Option.none,
    attributes := Option.none, rendering := Option.none }

def wNgffImage : BIAImage :=
  { id := "IM2", accession_id := some "S-BIAD1", name := Option.none,
    original_relpath := "rel/im2", dimensions := Option.none,
    representations := [wNgff1, wNgff2], attributes := [] }

/-- A fetch-and-parse collaborator that records the fetched URI in the returned
document, so a result identifies which URI was fetched. -/
def wFetchLog : String → Except String OME := fun u => Except.ok ⟨u⟩

/-- A fetch-and-parse collaborator that fails on any URI, so a successful
result shows no fetch was attempted. -/
def wFetchBoom : String → Except String OME := fun _ => Except.error "AssertionError"

def wC10 : Collaborators :=
  { get_study := fun _ => Except.ok wStudy,
    get_study_annotations := fun _ => Except.ok [],
    get_image_annotations := fun _ _ => Except.ok
      [⟨"S-BIAD1", "IM1", "ome_metadata", "shadow"⟩],
    get_representations := fun _ _ => Except.ok [] }

def wD10 : StudyDict :=
  match load_and_annotate_study wC10 "S-BIAD1" with
  | Except.ok d => d
  | Except.error _ => []

def wImgd10 : ImageDict :=
  match imagesOf wD10 with
  | p :: _ => p.2
  | [] => []

def wCachedImgd : ImageDict :=
  dictSet wNgffImage.toDict "ome_metadata"
    (ImgVal.ome ⟨"http://h/b/OME/METADATA.ome.xml"⟩)

/-- C4 counterexample: on an image with two ome_ngff representations, the
metadata URI actually fetched is the one derived from the LAST ome_ngff
representation's URI, not from the first one as claimed: the recorded fetched
URI differs from the URI derived from the first ome_ngff representation. -/
theorem C4_first_ngff_counterexample :
    (wNgffImage.representations.filter (fun rp => rp.type = some "ome_ngff")).head? =
      some wNgff1 ∧
    wNgff1.uri = Sum.inl "http://h/a/im1.zarr" ∧
    deriveOmeUri "http://h/a/im1.zarr" = some "http://h/a/OME/METADATA.ome.xml" ∧
    ome_metadata wFetchLog wNgffImage.toDict =
      Except.ok (ImgVal.ome ⟨"http://h/b/OME/METADATA.ome.xml"⟩,
        dictSet wNgffImage.toDict "ome_metadata"
          (ImgVal.ome ⟨"http://h/b/OME/METADATA.ome.xml"⟩), 1) ∧
    ("http://h/b/OME/METADATA.ome.xml" : String) ≠ "http://h/a/OME/METADATA.ome.xml" :=
  ⟨by decide, by decide, by decide, by decide, by decide⟩

theorem C4_uses_last_ngff_uri_witness :
    ome_metadata wFetchLog wNgffImage.toDict =
      Except.map (fun o => (ImgVal.ome o,
        dictSet wNgffImage.toDict "ome_metadata" (ImgVal.ome o), 1))
        (wFetchLog "http://h/b/OME/METADATA.ome.xml") :=
  C4_uses_last_ngff_uri wNgffImage wFetchLog wNgff2 (by decide) "http://h/b/im2.zarr"
    "http://h/b/OME/METADATA.ome.xml" (by decide) (by decide)

theorem C1_last_write_wins_witness :
    dictGet wD "organism" = some (StudyVal.str "human") ∧
    dictGet wImgd "dimensions" = some (ImgVal.str "5D") := by
  have h := C1_last_write_wins wC "S-BIAD1" wD (by decide)
  exact ⟨h.1 [⟨"S-BIAD1", "organism", "mouse2"⟩, ⟨"S-BIAD1", "organism", "human"⟩]
      "organism" "human" (by decide) (by decide),
    h.2 "IM1" [⟨"S-BIAD1", "IM1", "dimensions", "4D"⟩, ⟨"S-BIAD1", "IM1", "dimensions", "5D"⟩]
      "dimensions" "5D" wImgd (by decide) (by decide) (by decide)⟩

theorem C2_append_representations_witness :
    ∃ after, dictGet wImgd "representations" = some (ImgVal.reps after) ∧
      after.length = wImage.representations.length + [wThumbRep].length ∧
      after.take wImage.representations.length = wImage.representations ∧
      after.drop wImage.representations.length = [wThumbRep] :=
  C2_append_representations wC "S-BIAD1" wD wStudy (by decide) (by decide) (by decide)
    "IM1" wImage (by decide) [wThumbRep] (by decide) wImgd (by decide)

theorem C3_error_propagation_witness :
    load_and_annotate_study wCFail1 "S-BIAD1" = Except.error "boom1" ∧
    load_and_annotate_study wCFail2 "S-BIAD1" = Except.error "boom2" ∧
    load_and_annotate_study wCFail3 "S-BIAD1" = Except.error "boom3" ∧
    load_and_annotate_study wCFail4 "S-BIAD1" = Except.error "boom4" :=
  ⟨(C3_error_propagation wCFail1 "S-BIAD1").1 "boom1" (by decide),
   (C3_error_propagation wCFail2 "S-BIAD1").2.1 wStudy "boom2" (by decide) (by decide),
   (C3_error_propagation wCFail3 "S-BIAD1").2.2.1 wStudy []
     [("IM1", wImage.toDict)] [] "IM1" wImage.toDict [] [] "boom3"
     (by decide) (by decide) (by decide) (by decide) (by decide) (by decide),
   (C3_error_propagation wCFail4 "S-BIAD1").2.2.2 wStudy []
     [("IM1", wImage.toDict)] [] "IM1" wImage.toDict [] [] [] "boom4"
     (by decide) (by decide) (by decide) (by decide) (by decide) (by decide) (by decide)⟩

theorem C5_no_ngff_no_fetch_witness :
    ome_metadata wFetchBoom wImage.toDict = Except.ok (ImgVal.pyNone, wImage.toDict, 0) :=
  C5_no_ngff_no_fetch wImage wFetchBoom (by decide)

theorem C6_cached_after_first_access_witness :
    ome_metadata wFetchLog wCachedImgd =
      Except.ok (ImgVal.ome ⟨"http://h/b/OME/METADATA.ome.xml"⟩, wCachedImgd, 0) :=
  C6_cached_after_first_access wNgffImage.toDict wCachedImgd
    (ImgVal.ome ⟨"http://h/b/OME/METADATA.ome.xml"⟩) 1 wFetchLog (by decide) (by decide)

theorem C10_annotation_shadows_cache_witness :
    ome_metadata wFetchBoom wImgd10 = Except.ok (ImgVal.str "shadow", wImgd10, 0) :=
  C10_annotation_shadows_cache wC10 "S-BIAD1" wD10 (by decide) "IM1"
    [⟨"S-BIAD1", "IM1", "ome_metadata", "shadow"⟩] (by decide) "shadow" (by decide)
    wImgd10 (by decide) wFetchBoom
